import Mathlib

/-!
Verification of the exportarr Sabnzbd configuration subsystem.

The development shallowly embeds the Go source of the repository:
the INI adapter (Unmarshal, Marshal, Merge and its helpers
getStringFromMap / convertToString), the configuration resolver
LoadSabnzbdConfig, and the Validate contract of SabnzbdConfig.

External library behaviour that is not part of the repository source
(the koanf key-value store and its env / posflag / file providers, the
Go net/url parser, and the gookit/validate engine) is modelled from the
specification; every such definition carries a doc comment starting
with "Modelled from the spec:".
-/

/-! ## Go string primitives (strings.TrimSpace, strings.Trim, strings.Contains, SplitN) -/

/-- Whitespace predicate of Go unicode.IsSpace restricted to the Latin-1
range, which is what strings.TrimSpace consults for ASCII input. -/
def goIsSpace (c : Char) : Bool :=
  c = ' ' ∨ c = '\t' ∨ c = '\n' ∨ c = (Char.ofNat 11) ∨ c = (Char.ofNat 12) ∨
  c = '\r' ∨ c = (Char.ofNat 133) ∨ c = (Char.ofNat 160)

/-- Drop elements satisfying p from the end of a list. -/
def dropTrailing (p : Char → Bool) (l : List Char) : List Char :=
  (l.reverse.dropWhile p).reverse

/-- Embedding of strings.TrimSpace. -/
def goTrimSpace (s : String) : String :=
  String.mk (dropTrailing goIsSpace (s.data.dropWhile goIsSpace))

/-- Embedding of strings.Trim with an explicit cutset. -/
def goTrim (s : String) (cutset : List Char) : String :=
  String.mk (dropTrailing (fun c => cutset.contains c)
    (s.data.dropWhile (fun c => cutset.contains c)))

/-- Embedding of strings.Contains on character lists. -/
def listContains (hay sub : List Char) : Bool :=
  match hay with
  | [] => sub.isEmpty
  | _ :: t => sub.isPrefixOf hay || listContains t sub

/-- Splitting a list at every occurrence of a separator character, the
semantics of strings.Split with a one-character separator; kept
structural so that terms reduce inside the kernel. -/
def splitOnChar (c : Char) : List Char → List (List Char)
  | [] => [[]]
  | x :: t =>
    if x = c then [] :: splitOnChar c t
    else
      match splitOnChar c t with
      | [] => [[x]]
      | h :: r => (x :: h) :: r

/-- Embedding of strings.Split with a one-character separator. -/
def strSplitOnChar (s : String) (c : Char) : List String :=
  (splitOnChar c s.data).map String.mk

/-- Embedding of strings.HasPrefix. -/
def strStartsWith (s p : String) : Bool := p.data.isPrefixOf s.data

/-- Embedding of strings.HasSuffix. -/
def strEndsWith (s p : String) : Bool := p.data.reverse.isPrefixOf s.data.reverse

/-- Embedding of strings.ReplaceAll for a two-character pattern,
scanning left to right without overlap. -/
def replaceAll2 (a b : Char) (rep : List Char) : List Char → List Char
  | [] => []
  | [x] => [x]
  | x :: y :: t =>
    if x = a ∧ y = b then rep ++ replaceAll2 a b rep t
    else x :: replaceAll2 a b rep (y :: t)

/-- Embedding of strings.ReplaceAll for a one-character pattern and
replacement. -/
def replaceChar (a rep : Char) (l : List Char) : List Char :=
  l.map (fun c => if c = a then rep else c)

/-- Split a list at the first occurrence of c: the second component is
none when c does not occur.  This is the semantics of strings.Cut and
of strings.SplitN with n = 2. -/
def cutFirst (c : Char) : List Char → List Char × Option (List Char)
  | [] => ([], none)
  | x :: t =>
    if x = c then ([], some t)
    else
      let r := cutFirst c t
      (x :: r.1, r.2)

/-- Split a list at the last occurrence of c (strings.LastIndex). -/
def cutLast (c : Char) : List Char → Option (List Char × List Char)
  | [] => none
  | x :: t =>
    match cutLast c t with
    | some (a, b) => some (x :: a, b)
    | none => if x = c then some ([], t) else none

theorem cutFirst_none {c : Char} {l : List Char}
    (h : (cutFirst c l).2 = none) : (cutFirst c l).1 = l := by
  induction l with
  | nil => simp [cutFirst]
  | cons x t ih =>
    by_cases hx : x = c
    · simp [cutFirst, hx] at h
    · simp only [cutFirst, if_neg hx] at h ⊢
      simp [ih h]

theorem cutFirst_some {c : Char} {l b : List Char}
    (h : (cutFirst c l).2 = some b) : l = (cutFirst c l).1 ++ c :: b := by
  induction l with
  | nil => simp [cutFirst] at h
  | cons x t ih =>
    by_cases hx : x = c
    · simp only [cutFirst, if_pos hx] at h ⊢
      simp at h
      simp [hx, h]
    · simp only [cutFirst, if_neg hx] at h ⊢
      simpa using ih h

theorem cutLast_some {c : Char} {l a b : List Char}
    (h : cutLast c l = some (a, b)) : l = a ++ c :: b := by
  induction l generalizing a b with
  | nil => simp [cutLast] at h
  | cons x t ih =>
    simp only [cutLast] at h
    cases hr : cutLast c t with
    | some p =>
      rw [hr] at h
      obtain ⟨q, r⟩ := p
      simp only [Option.some.injEq, Prod.mk.injEq] at h
      obtain ⟨h1, h2⟩ := h
      have := ih (a := q) (b := r) hr
      simp [← h1, h2 ▸ this]
    | none =>
      rw [hr] at h
      by_cases hx : x = c
      · simp only [if_pos hx, Option.some.injEq, Prod.mk.injEq] at h
        obtain ⟨h1, h2⟩ := h
        simp [← h1, ← h2, hx]
      · simp [if_neg hx] at h

/-! ## Heterogeneous Go values (interface values stored in the maps) -/

/-- Value of Go type interface held in a configuration map: a string,
an int, an int64, a nested map, or any other value carried by the text
that fmt.Sprintf("%v") would print for it. -/
inductive GoVal where
  | str : String → GoVal
  | int : Int → GoVal
  | int64 : Int → GoVal
  | vmap : List (String × GoVal) → GoVal
  | other : String → GoVal

/-- Model of a Go map with string keys: an association list where a key
occurs at most once; kvSet below preserves that discipline. -/
abbrev KVMap := List (String × GoVal)

/-- Lookup in the association-list model of a Go map. -/
def kvLookup (m : KVMap) (key : String) : Option GoVal :=
  match m with
  | [] => none
  | (k, v) :: t => if k = key then some v else kvLookup t key

/-- Assignment in the association-list model of a Go map. -/
def kvSet (m : KVMap) (key : String) (v : GoVal) : KVMap :=
  match m with
  | [] => [(key, v)]
  | (k, w) :: t => if k = key then (k, v) :: t else (k, w) :: kvSet t key v

@[simp]
theorem kvLookup_kvSet_self (m : KVMap) (key : String) (v : GoVal) :
    kvLookup (kvSet m key v) key = some v := by
  induction m with
  | nil => simp [kvSet, kvLookup]
  | cons p t ih =>
    obtain ⟨k, w⟩ := p
    by_cases hk : k = key
    · simp [kvSet, kvLookup, hk]
    · simp [kvSet, kvLookup, hk, ih]

theorem kvLookup_kvSet_ne (m : KVMap) {key key2 : String} (v : GoVal)
    (h : key2 ≠ key) : kvLookup (kvSet m key v) key2 = kvLookup m key2 := by
  have h2 : ¬ (key = key2) := fun he => h he.symm
  induction m with
  | nil => simp [kvSet, kvLookup, h2]
  | cons p t ih =>
    obtain ⟨k, w⟩ := p
    by_cases hk : k = key
    · subst hk
      simp [kvSet, kvLookup, h2]
    · simp [kvSet, kvLookup, hk, ih]

/-- Lexicographic order on character lists, used to model the sorted
key order in which the Go fmt package prints maps. -/
def charListLt : List Char → List Char → Bool
  | [], [] => false
  | [], _ :: _ => true
  | _ :: _, [] => false
  | a :: as, b :: bs =>
    if a.toNat < b.toNat then true
    else if b.toNat < a.toNat then false
    else charListLt as bs

/-- Insertion of a formatted map entry keeping keys sorted. -/
def insertEntry (p : String × String) : List (String × String) → List (String × String)
  | [] => [p]
  | q :: t => if charListLt p.1.data q.1.data then p :: q :: t else q :: insertEntry p t

/-- Insertion sort of formatted map entries by key. -/
def sortEntries : List (String × String) → List (String × String)
  | [] => []
  | p :: t => insertEntry p (sortEntries t)

/-- Concatenation of map entries the way fmt prints them. -/
def joinEntries : List (String × String) → String
  | [] => ""
  | [p] => p.1 ++ ":" ++ p.2
  | p :: q :: t => p.1 ++ ":" ++ p.2 ++ " " ++ joinEntries (q :: t)

mutual
/-- Textual form a Go fmt %v verb would produce for a stored value;
the default branch of convertToString in the source delegates to it. -/
def goFmtVal : GoVal → String
  | GoVal.str s => s
  | GoVal.int n => toString n
  | GoVal.int64 n => toString n
  | GoVal.vmap m => "map[" ++ joinEntries (sortEntries (goFmtEntries m)) ++ "]"
  | GoVal.other s => s

/-- Formats each entry of a nested map for goFmtVal. -/
def goFmtEntries : List (String × GoVal) → List (String × String)
  | [] => []
  | (k, v) :: t => (k, goFmtVal v) :: goFmtEntries t
end

/-- Embedding of convertToString from the source: strings pass through,
ints format in base 10, anything else takes its fmt %v form. -/
def convertToString : GoVal → String
  | GoVal.str v => v
  | GoVal.int n => toString n
  | GoVal.int64 n => toString n
  | v => goFmtVal v

/-- Nested-map traversal loop of getStringFromMap. -/
def getStringNested : GoVal → List String → Option String
  | _, [] => none
  | current, part :: rest =>
    match current with
    | GoVal.vmap mm =>
      match kvLookup mm part with
      | none => none
      | some val => if rest = [] then some (convertToString val) else getStringNested val rest
    | _ => none

/-- Embedding of getStringFromMap: direct flat lookup first, then a
nested traversal over the dot-separated parts of the key.  The Go
function returns a pair of a string and an ok flag; the model fuses
them into an Option. -/
def getStringFromMap (m : KVMap) (key : String) : Option String :=
  match kvLookup m key with
  | some val => some (convertToString val)
  | none =>
    let parts := strSplitOnChar key '.'
    match parts with
    | [] => none
    | _ => getStringNested (GoVal.vmap m) parts

/-! ## INI adapter: Unmarshal and Marshal -/

/-- Scanning loop of strings.SplitN with n = 2 for a one-character
separator: accumulates the prefix until the first separator. -/
def goSplitN2Aux (sep : Char) (acc : List Char) : List Char → List String
  | [] => [String.mk acc.reverse]
  | x :: t =>
    if x = sep then [String.mk acc.reverse, String.mk t]
    else goSplitN2Aux sep (x :: acc) t

/-- Embedding of strings.SplitN(s, sep, 2) for a one-character
separator, as used by the line parser of the INI adapter. -/
def goSplitN2 (s : String) (sep : Char) : List String :=
  goSplitN2Aux sep [] s.data

/-- Per-line state transition of INI Unmarshal: the state is the pair
of the current section and the accumulated result map. -/
def iniStep (st : String × KVMap) (rawLine : String) : String × KVMap :=
  let line := goTrimSpace rawLine
  if line = "" ∨ strStartsWith line "#" ∨ strStartsWith line ";" then st
  else if listContains line.data "sabnzbd.ini_version__".data ∨
          listContains line.data "__encoding__".data then st
  else if strStartsWith line "[" ∧ strEndsWith line "]" then (goTrim line ['[', ']'], st.2)
  else
    match goSplitN2 line '=' with
    | [k, v] =>
      (st.1, kvSet st.2 (st.1 ++ "." ++ goTrimSpace k)
        (GoVal.str (goTrim (goTrimSpace v) ['\"'])))
    | _ => st

/-- Embedding of INI.Unmarshal.  The bufio line scanner is modelled by
splitting on the newline character; carriage returns and the final
empty piece after a trailing newline are removed by the TrimSpace and
blank-line handling exactly as in the source. -/
def INI.Unmarshal (b : String) : KVMap :=
  ((strSplitOnChar b '\n').foldl iniStep ("misc", [])).2

/-- Embedding of INI.Marshal, which unconditionally reports that the
adapter is read-only. -/
def INI.Marshal (_ : KVMap) : Except String String :=
  Except.error "not implemented"

/-! ## Specification-side restatement of the INI parsing rules (C7) -/

/-- Classification of one input line according to the specification
wording: skipped, a section header, or a key/value entry. -/
inductive IniLineKind where
  | skip : IniLineKind
  | header : String → IniLineKind
  | entry : String → String → IniLineKind

/-- Line classification following the words of the specification: after
trimming, blank and comment lines and legacy-header lines contribute
nothing; a bracketed line is a section header; any other line with an
equals sign is split at its first equals sign into a trimmed key and a
trimmed, quote-stripped value. -/
def specClassifyLine (rawLine : String) : IniLineKind :=
  let t := goTrimSpace rawLine
  if t = "" then IniLineKind.skip
  else if strStartsWith t "#" ∨ strStartsWith t ";" then IniLineKind.skip
  else if listContains t.data "sabnzbd.ini_version__".data ∨
          listContains t.data "__encoding__".data then IniLineKind.skip
  else if strStartsWith t "[" ∧ strEndsWith t "]" then IniLineKind.header (goTrim t ['[', ']'])
  else
    match cutFirst '=' t.data with
    | (_, none) => IniLineKind.skip
    | (a, some b) =>
      IniLineKind.entry (goTrimSpace (String.mk a))
        (goTrim (goTrimSpace (String.mk b)) ['\"'])

/-- Specification-side fold step over classified lines. -/
def specIniStep (st : String × KVMap) (l : String) : String × KVMap :=
  match specClassifyLine l with
  | IniLineKind.skip => st
  | IniLineKind.header n => (n, st.2)
  | IniLineKind.entry k v => (st.1, kvSet st.2 (st.1 ++ "." ++ k) (GoVal.str v))

/-- Specification-side INI parser: fold the classified lines with the
default section misc. -/
def specUnmarshal (b : String) : KVMap :=
  ((strSplitOnChar b '\n').foldl specIniStep ("misc", [])).2

theorem goSplitN2Aux_eq (sep : Char) (l : List Char) : ∀ acc,
    goSplitN2Aux sep acc l =
      match cutFirst sep l with
      | (a, none) => [String.mk (acc.reverse ++ a)]
      | (a, some b) => [String.mk (acc.reverse ++ a), String.mk b] := by
  induction l with
  | nil => intro acc; simp [goSplitN2Aux, cutFirst]
  | cons x t ih =>
    intro acc
    by_cases hx : x = sep
    · simp [goSplitN2Aux, cutFirst, hx]
    · simp only [goSplitN2Aux, cutFirst, if_neg hx, ih (x :: acc)]
      cases hr : cutFirst sep t with
      | mk a o =>
        cases o with
        | none => simp
        | some b => simp

theorem goSplitN2_eq (s : String) (sep : Char) :
    goSplitN2 s sep =
      match cutFirst sep s.data with
      | (a, none) => [String.mk a]
      | (a, some b) => [String.mk a, String.mk b] := by
  have := goSplitN2Aux_eq sep s.data []
  simpa [goSplitN2] using this

theorem iniStep_eq_specIniStep (st : String × KVMap) (l : String) :
    iniStep st l = specIniStep st l := by
  unfold iniStep specIniStep specClassifyLine
  set t := goTrimSpace l with ht
  by_cases h1 : t = "" ∨ strStartsWith t "#" ∨ strStartsWith t ";"
  · rcases h1 with h | h
    · simp [h]
    · rcases h with h | h <;> simp [h]
  · push_neg at h1
    obtain ⟨hb, hc⟩ := h1
    have hcs : ¬ (strStartsWith t "#" ∨ strStartsWith t ";") := by
      intro h; rcases h with h | h
      · exact absurd h (by simpa using hc.1)
      · exact absurd h (by simpa using hc.2)
    simp only [if_neg hb] at *
    by_cases h2 : listContains t.data "sabnzbd.ini_version__".data ∨
        listContains t.data "__encoding__".data
    · simp [hb, hcs, h2]
    · by_cases h3 : strStartsWith t "[" ∧ strEndsWith t "]"
      · simp [hb, hcs, h2, h3]
      · simp only [hb, hcs, h2, h3, if_neg, if_false, goSplitN2_eq]
        cases hr : cutFirst '=' t.data with
        | mk a o =>
          cases o with
          | none => simp [hb, hcs, h2, h3, hr]
          | some b => simp [hb, hcs, h2, h3, hr]

/-- C7: for every input text, INI Unmarshal agrees with the
line-classification semantics stated in the specification: blank,
comment and legacy-header lines contribute nothing, bracketed lines
only change the current section (default misc), and every other line
containing an equals sign is split at its first equals sign, trimmed,
quote-stripped, and stored under section.key with later occurrences
overwriting earlier ones. -/
theorem ini_unmarshal_follows_spec : ∀ b : String, INI.Unmarshal b = specUnmarshal b := by
  intro b
  unfold INI.Unmarshal specUnmarshal
  have : ∀ (lines : List String) (st : String × KVMap),
      lines.foldl iniStep st = lines.foldl specIniStep st := by
    intro lines
    induction lines with
    | nil => intro st; rfl
    | cons l t ih => intro st; simp [List.foldl, iniStep_eq_specIniStep, ih]
  rw [this]

/-- C10: Marshal on the INI adapter returns an error for every input
mapping; the adapter is read-only. -/
theorem ini_marshal_always_fails : ∀ m : KVMap, INI.Marshal m = Except.error "not implemented" :=
  fun _ => rfl

/-! ## URL model.  The Go net/url package is not part of the repository
source, so the parser and printer below are modelled from the
specification wording (scheme, host:port authority, preserved path and
query components, parse failures surfacing as errors), following the
shape of the documented net/url behaviour.  Known simplifications, all
invisible to the merge logic under verification: the scheme is not
lower-cased, an empty query or fragment present in the input is kept
and reprinted, and host-character validation rejects the space
character and control characters only. -/

/-- Control characters, which make URL parsing fail. -/
def isCTL (c : Char) : Bool := c.toNat < 32 ∨ c.toNat = 127

/-- Letters allowed anywhere in a URL scheme. -/
def isSchemeAlpha (c : Char) : Bool := c.isAlpha

/-- Characters allowed in a URL scheme after the first position. -/
def isSchemeOther (c : Char) : Bool := c.isDigit ∨ c = '+' ∨ c = '-' ∨ c = '.'

/-- Modelled from the spec: scheme extraction of URL parsing.  Returns
none when the input has no scheme prefix, the scheme and remainder when
it has one, and an error for a leading colon. -/
def schemeSplitAux (acc : List Char) : List Char → Except String (Option (List Char × List Char))
  | [] => Except.ok none
  | x :: t =>
    if isSchemeAlpha x then schemeSplitAux (acc ++ [x]) t
    else if isSchemeOther x then
      (if acc = [] then Except.ok none else schemeSplitAux (acc ++ [x]) t)
    else if x = ':' then
      (if acc = [] then Except.error "missing protocol scheme" else Except.ok (some (acc, t)))
    else Except.ok none

/-- Modelled from the spec: a parsed URL.  The host field carries the
whole host:port authority component; hasAuthority records whether the
input had a double-slash authority even when the host is empty. -/
structure GoURL where
  scheme : List Char
  opaquePart : List Char
  user : Option (List Char)
  host : List Char
  hasAuthority : Bool
  path : List Char
  query : Option (List Char)
  fragment : Option (List Char)
deriving DecidableEq

/-- Optional URL component prefixed by its separator character when
present. -/
def optPart (c : Char) : Option (List Char) → List Char
  | some b => c :: b
  | none => []

/-- Userinfo part of a printed authority. -/
def userPart : Option (List Char) → List Char
  | some us => us ++ ['@']
  | none => []

/-- Path recovered from the authority cut: the slash is restored when
the cut found one. -/
def pathFromCut : Option (List Char) → List Char
  | some b2 => '/' :: b2
  | none => []

/-- Digits check used for the optional port of an authority. -/
def allDigits (l : List Char) : Bool := l.all Char.isDigit

/-- Modelled from the spec: host validation.  A bracketed host needs a
closing bracket followed by an optional numeric port; an unbracketed
host may end in an optional numeric port after its last colon; a host
containing a space is rejected.  On success the host is returned
verbatim. -/
def parseHost (hp : List Char) : Option (List Char) :=
  if hp.head? = some '[' then
    match cutLast ']' hp with
    | none => none
    | some (_, after) =>
      if after = [] ∨ (after.head? = some ':' ∧ allDigits (after.drop 1)) then
        if hp.contains ' ' then none else some hp
      else none
  else
    match cutLast ':' hp with
    | some (_, port) =>
      if allDigits port then (if hp.contains ' ' then none else some hp) else none
    | none => if hp.contains ' ' then none else some hp

/-- Modelled from the spec: authority parsing, splitting the userinfo
at the last at-sign and validating the host:port remainder. -/
def parseAuthority (auth : List Char) : Option (Option (List Char) × List Char) :=
  match cutLast '@' auth with
  | some p => (parseHost p.2).map (fun h => (some p.1, h))
  | none => (parseHost auth).map (fun h => (none, h))

/-- Modelled from the spec: analysis of the remainder after scheme and
query extraction.  An input without a leading slash is opaque when a
scheme is present (and rejected when schemeless with a colon in its
first path segment); a double-slash prefix starts an authority;
anything else is a plain path. -/
def parseAfterQuery (sch rest2 : List Char) (query : Option (List Char)) : Option GoURL :=
  if rest2.head? ≠ some '/' then
    if sch ≠ [] then
      some ⟨sch, rest2, none, [], false, [], query, none⟩
    else
      if ((cutFirst '/' rest2).1).contains ':' then none
      else some ⟨[], [], none, [], false, rest2, query, none⟩
  else
    if rest2.take 2 = ['/', '/'] ∧ (sch ≠ [] ∨ rest2.take 3 ≠ ['/', '/', '/']) then
      match parseAuthority ((cutFirst '/' (rest2.drop 2)).1) with
      | none => none
      | some p =>
        some ⟨sch, [], p.1, p.2, true,
          pathFromCut ((cutFirst '/' (rest2.drop 2)).2), query, none⟩
    else
      some ⟨sch, [], none, [], false, rest2, query, none⟩

/-- Modelled from the spec: URL parsing after scheme extraction; the
query is split off at the first question mark before the remainder is
analysed. -/
def parseNoFragCore (sch rest : List Char) : Option GoURL :=
  parseAfterQuery sch ((cutFirst '?' rest).1) ((cutFirst '?' rest).2)

/-- Modelled from the spec: URL parsing without the fragment part,
dispatching on the result of scheme extraction. -/
def parseNoFrag (r : List Char) : Option GoURL :=
  match schemeSplitAux [] r with
  | Except.error _ => none
  | Except.ok none => parseNoFragCore [] r
  | Except.ok (some p) => parseNoFragCore p.1 p.2

/-- Modelled from the spec: full URL parsing; control characters are
rejected and the fragment is split off first. -/
def parseURLChars (s : List Char) : Option GoURL :=
  if s.any isCTL then none
  else
    match parseNoFrag ((cutFirst '#' s).1) with
    | none => none
    | some u => some { u with fragment := (cutFirst '#' s).2 }

/-- Modelled from the spec: URL parsing on strings. -/
def parseURL (s : String) : Option GoURL := parseURLChars s.data

/-- Modelled from the spec: URL printing, reassembling scheme, opaque
part or authority plus path, query and fragment. -/
def printURLChars (u : GoURL) : List Char :=
  (if u.scheme = [] then [] else u.scheme ++ [':'])
  ++ (if u.opaquePart = [] then
        (if u.host = [] ∧ u.user = none ∧ u.hasAuthority = false then
          u.path
         else
          ['/', '/'] ++ userPart u.user ++ u.host
          ++ (if u.path ≠ [] ∧ u.path.head? ≠ some '/' ∧ u.host ≠ [] then '/' :: u.path
              else u.path))
      else u.opaquePart)
  ++ optPart '?' u.query ++ optPart '#' u.fragment

/-- Modelled from the spec: URL printing on strings. -/
def goURLString (u : GoURL) : String := String.mk (printURLChars u)

theorem schemeSplitAux_some {l : List Char} : ∀ {acc sch rest : List Char},
    schemeSplitAux acc l = Except.ok (some (sch, rest)) →
    sch ++ ':' :: rest = acc ++ l ∧ sch ≠ [] := by
  induction l with
  | nil => intro acc sch rest h; simp [schemeSplitAux] at h
  | cons x t ih =>
    intro acc sch rest h
    by_cases h1 : isSchemeAlpha x
    · simp only [schemeSplitAux, if_pos h1] at h
      obtain ⟨e, ne⟩ := ih h
      exact ⟨by simpa using e, ne⟩
    · by_cases h2 : isSchemeOther x
      · simp only [schemeSplitAux, if_neg h1, if_pos h2] at h
        by_cases h3 : acc = []
        · simp [h3] at h
        · rw [if_neg h3] at h
          obtain ⟨e, ne⟩ := ih h
          exact ⟨by simpa using e, ne⟩
      · by_cases h4 : x = ':'
        · simp only [schemeSplitAux, if_neg h1, if_neg h2, if_pos h4] at h
          by_cases h3 : acc = []
          · simp [h3] at h
          · rw [if_neg h3] at h
            simp only [Except.ok.injEq, Option.some.injEq, Prod.mk.injEq] at h
            obtain ⟨e1, e2⟩ := h
            subst e1; subst e2
            exact ⟨by simp [h4], h3⟩
        · simp [schemeSplitAux, if_neg h1, if_neg h2, if_neg h4] at h

theorem parseHost_some {hp h : List Char} (hh : parseHost hp = some h) : h = hp := by
  unfold parseHost at hh
  repeat' split at hh
  all_goals simp_all

theorem parseAuthority_some {auth : List Char} {us : Option (List Char)} {h : List Char}
    (hh : parseAuthority auth = some (us, h)) :
    userPart us ++ h = auth := by
  unfold parseAuthority at hh
  cases hb : cutLast '@' auth with
  | some p =>
    rw [hb] at hh
    obtain ⟨a, ha, hfa⟩ := Option.map_eq_some'.mp hh
    have he := parseHost_some ha
    simp only [Prod.mk.injEq] at hfa
    obtain ⟨e1, e2⟩ := hfa
    subst e1
    subst e2
    subst he
    have := cutLast_some (l := auth) hb
    simp [userPart, this]
  | none =>
    rw [hb] at hh
    obtain ⟨a, ha, hfa⟩ := Option.map_eq_some'.mp hh
    have he := parseHost_some ha
    simp only [Prod.mk.injEq] at hfa
    obtain ⟨e1, e2⟩ := hfa
    subst e1
    subst e2
    subst he
    simp [userPart]

theorem take_two_eq {l : List Char} (h : l.take 2 = ['/', '/']) :
    l = '/' :: '/' :: l.drop 2 := by
  match l with
  | [] => simp at h
  | [a] => simp at h
  | a :: b :: t =>
    simp only [List.take, List.cons.injEq] at h
    obtain ⟨e1, e2, _⟩ := h
    simp [e1, e2]

theorem cutFirst_recombine (c : Char) (l : List Char) :
    (cutFirst c l).1 ++ optPart c (cutFirst c l).2 = l := by
  cases hb : (cutFirst c l).2 with
  | none => simpa [optPart] using cutFirst_none hb
  | some b => simpa [optPart] using (cutFirst_some hb).symm

theorem parseAfterQuery_print {sch rest2 : List Char} {query : Option (List Char)} {u : GoURL}
    (h : parseAfterQuery sch rest2 query = some u) :
    u.fragment = none ∧
      printURLChars u = (if sch = [] then [] else sch ++ [':']) ++ rest2 ++ optPart '?' query := by
  unfold parseAfterQuery at h
  by_cases hslash : rest2.head? ≠ some '/'
  · rw [if_pos hslash] at h
    by_cases hsch : sch ≠ []
    · rw [if_pos hsch] at h
      have hu := Option.some.injEq _ _ |>.mp h
      subst hu
      refine ⟨rfl, ?_⟩
      by_cases hr2 : rest2 = [] <;> simp [printURLChars, userPart, optPart, hr2]
    · rw [if_neg hsch] at h
      push_neg at hsch
      by_cases hcolon : ((cutFirst '/' rest2).1).contains ':'
      · rw [if_pos hcolon] at h; cases h
      · rw [if_neg hcolon] at h
        have hu := Option.some.injEq _ _ |>.mp h
        subst hu
        refine ⟨rfl, ?_⟩
        simp [printURLChars, userPart, optPart, hsch]
  · rw [if_neg hslash] at h
    by_cases hauth : rest2.take 2 = ['/', '/'] ∧ (sch ≠ [] ∨ rest2.take 3 ≠ ['/', '/', '/'])
    · rw [if_pos hauth] at h
      cases hpa : parseAuthority ((cutFirst '/' (rest2.drop 2)).1) with
      | none => rw [hpa] at h; cases h
      | some p =>
        rw [hpa] at h
        have hu := Option.some.injEq _ _ |>.mp h
        subst hu
        refine ⟨rfl, ?_⟩
        have h2 := take_two_eq hauth.1
        have hrec2 := cutFirst_recombine '/' (rest2.drop 2)
        have husr : userPart p.1 ++ p.2 = (cutFirst '/' (rest2.drop 2)).1 :=
          @parseAuthority_some _ p.1 p.2 (by rw [hpa])
        have hpadj : (if pathFromCut ((cutFirst '/' (rest2.drop 2)).2) ≠ [] ∧
            (pathFromCut ((cutFirst '/' (rest2.drop 2)).2)).head? ≠ some '/' ∧ p.2 ≠ [] then
              '/' :: pathFromCut ((cutFirst '/' (rest2.drop 2)).2)
            else pathFromCut ((cutFirst '/' (rest2.drop 2)).2))
            = pathFromCut ((cutFirst '/' (rest2.drop 2)).2) := by
          cases hobk : (cutFirst '/' (rest2.drop 2)).2 with
          | none => simp [pathFromCut]
          | some b2 => simp [pathFromCut]
        have hfull : userPart p.1 ++ p.2 ++ pathFromCut ((cutFirst '/' (rest2.drop 2)).2)
            = rest2.drop 2 := by
          rw [husr]
          have hsame : pathFromCut ((cutFirst '/' (rest2.drop 2)).2)
              = optPart '/' ((cutFirst '/' (rest2.drop 2)).2) := by
            cases (cutFirst '/' (rest2.drop 2)).2 with
            | none => simp [pathFromCut, optPart]
            | some b2 => simp [pathFromCut, optPart]
          rw [hsame, hrec2]
        simp only [printURLChars]
        simp only [hpadj]
        simp only [List.append_assoc] at hfull
        conv_rhs => rw [h2, ← hfull]
        simp [optPart, List.append_assoc]
    · rw [if_neg hauth] at h
      have hu := Option.some.injEq _ _ |>.mp h
      subst hu
      refine ⟨rfl, ?_⟩
      by_cases hsch : sch = [] <;> simp [printURLChars, userPart, optPart, hsch]

theorem parseNoFragCore_print {sch rest : List Char} {u : GoURL}
    (h : parseNoFragCore sch rest = some u) :
    u.fragment = none ∧
      printURLChars u = (if sch = [] then [] else sch ++ [':']) ++ rest := by
  unfold parseNoFragCore at h
  obtain ⟨hf, hp⟩ := parseAfterQuery_print h
  refine ⟨hf, ?_⟩
  rw [hp]
  have := cutFirst_recombine '?' rest
  simp only [List.append_assoc]
  rw [this]

theorem parseNoFrag_print {r : List Char} {u : GoURL} (h : parseNoFrag r = some u) :
    u.fragment = none ∧ printURLChars u = r := by
  unfold parseNoFrag at h
  cases hs : schemeSplitAux [] r with
  | error e => rw [hs] at h; cases h
  | ok schemeOpt =>
    rw [hs] at h
    cases schemeOpt with
    | none =>
      obtain ⟨hf, hp⟩ := parseNoFragCore_print h
      exact ⟨hf, by simpa using hp⟩
    | some p =>
      obtain ⟨he, hne⟩ := @schemeSplitAux_some r [] p.1 p.2 hs
      obtain ⟨hf, hp⟩ := parseNoFragCore_print h
      refine ⟨hf, ?_⟩
      rw [hp, if_neg hne]
      simp only [List.append_assoc, List.singleton_append]
      simpa using he

theorem printURLChars_set_fragment (u : GoURL) (f : Option (List Char)) :
    printURLChars { u with fragment := f } =
      printURLChars { u with fragment := none } ++ optPart '#' f := by
  cases u
  simp [printURLChars, optPart]

theorem parseURLChars_roundtrip {s : List Char} {u : GoURL}
    (h : parseURLChars s = some u) : printURLChars u = s := by
  unfold parseURLChars at h
  by_cases hc : s.any isCTL
  · rw [if_pos hc] at h; cases h
  · rw [if_neg hc] at h
    cases hp : parseNoFrag ((cutFirst '#' s).1) with
    | none => rw [hp] at h; cases h
    | some u0 =>
      rw [hp] at h
      have hu := Option.some.injEq _ _ |>.mp h
      subst hu
      obtain ⟨hfrag, hprint⟩ := parseNoFrag_print hp
      have hrecomb := cutFirst_recombine '#' s
      rw [printURLChars_set_fragment]
      have heq : ({ u0 with fragment := none } : GoURL) = u0 := by
        cases u0
        simp_all
      rw [heq, hprint, hrecomb]

theorem parseURL_roundtrip {s : String} {u : GoURL} (h : parseURL s = some u) :
    goURLString u = s := by
  have := parseURLChars_roundtrip (s := s.data) h
  unfold goURLString
  rw [this]

/-! ## INI adapter: the Merge function -/

/-- Embedding of strings.Contains for a single character. -/
def strContainsChar (s : String) (c : Char) : Bool := s.data.contains c

/-- Embedding of the api-key step of the merge function: when
misc.api_key is present and non-empty in the source it is written to
the destination key api-key. -/
def mergeApiKey (src dest : KVMap) : KVMap :=
  match getStringFromMap src "misc.api_key" with
  | some apiKey => if apiKey ≠ "" then kvSet dest "api-key" (GoVal.str apiKey) else dest
  | none => dest

/-- Embedding of the protocol and port selection of the merge function:
https exactly when misc.enable_https is present and equals the string
one, in which case a present non-empty misc.https_port replaces the
port. -/
def mergeProtocolPort (src : KVMap) (port : String) : String × String :=
  match getStringFromMap src "misc.enable_https" with
  | some eh =>
    if eh = "1" then
      ("https",
        match getStringFromMap src "misc.https_port" with
        | some hp => if hp ≠ "" then hp else port
        | none => port)
    else ("http", port)
  | none => ("http", port)

/-- Embedding of the host normalization of the merge function: trim,
map a double-colon or empty host to localhost, and bracket an
unbracketed host containing a colon. -/
def normalizeHost (host : String) : String :=
  if goTrimSpace host = "::" ∨ goTrimSpace host = "" then "localhost"
  else if strContainsChar (goTrimSpace host) ':' ∧ ¬ strStartsWith (goTrimSpace host) "[" then
    "[" ++ goTrimSpace host ++ "]"
  else goTrimSpace host

/-- Embedding of the URL-construction step of the merge function: a
non-empty base URL is parsed and has its host and scheme overwritten;
an empty base URL leads to a URL constructed from scratch; parse
failures become errors. -/
def mergeURL (baseURL : String) (src dest1 : KVMap) (host port : String) : Except String KVMap :=
  if baseURL ≠ "" then
    match parseURL baseURL with
    | none => Except.error "failed to parse base URL"
    | some u =>
      Except.ok (kvSet dest1 "url" (GoVal.str (goURLString
        { u with host := (normalizeHost host ++ ":" ++ (mergeProtocolPort src port).2).data,
                 scheme := ((mergeProtocolPort src port).1).data })))
  else
    match parseURL ((mergeProtocolPort src port).1 ++ "://" ++ normalizeHost host ++ ":" ++ (mergeProtocolPort src port).2) with
    | none => Except.error "failed to parse constructed URL"
    | some u => Except.ok (kvSet dest1 "url" (GoVal.str (goURLString u)))

/-- Embedding of the merge function returned by INI.Merge(baseURL):
write the api key when present, then construct the url when both
misc.host and misc.port are present and non-empty. -/
def INI.Merge (baseURL : String) (src dest : KVMap) : Except String KVMap :=
  match getStringFromMap src "misc.host", getStringFromMap src "misc.port" with
  | some host, some port =>
    if host ≠ "" ∧ port ≠ "" then mergeURL baseURL src (mergeApiKey src dest) host port
    else Except.ok (mergeApiKey src dest)
  | _, _ => Except.ok (mergeApiKey src dest)

/-! ## Specification-side restatement of the merge URL construction (C1) -/

/-- Protocol selection in the words of the claim: https exactly when
misc.enable_https equals the string one, else http. -/
def specProtocol (src : KVMap) : String :=
  if getStringFromMap src "misc.enable_https" = some "1" then "https" else "http"

/-- Port selection in the words of the claim: when the protocol is
https and misc.https_port is present and non-empty, it replaces the
port. -/
def specPort (src : KVMap) (port : String) : String :=
  if specProtocol src = "https" then
    match getStringFromMap src "misc.https_port" with
    | some hp => if hp = "" then port else hp
    | none => port
  else port

/-- Host normalization in the words of the claim: trim whitespace, then
replace a host equal to a double colon or empty by localhost, otherwise
wrap a host containing a colon that does not already start with an
opening bracket. -/
def specNormHost (host : String) : String :=
  if goTrimSpace host = "::" ∨ goTrimSpace host = "" then "localhost"
  else if strContainsChar (goTrimSpace host) ':' ∧ ¬ strStartsWith (goTrimSpace host) "[" then
    "[" ++ goTrimSpace host ++ "]"
  else goTrimSpace host

theorem normalizeHost_eq_spec (host : String) : normalizeHost host = specNormHost host := rfl

theorem mergeProtocolPort_eq_spec (src : KVMap) (port : String) :
    mergeProtocolPort src port = (specProtocol src, specPort src port) := by
  unfold mergeProtocolPort
  cases he : getStringFromMap src "misc.enable_https" with
  | none =>
    have h1 : specProtocol src = "http" := by simp [specProtocol, he]
    have h2 : specPort src port = port := by simp [specPort, h1]
    simp [h1, h2]
  | some eh =>
    by_cases hq : eh = "1"
    · subst hq
      have h1 : specProtocol src = "https" := by simp [specProtocol, he]
      cases hp : getStringFromMap src "misc.https_port" with
      | none =>
        have h2 : specPort src port = port := by simp [specPort, h1, hp]
        simp [h1, h2, hp]
      | some hp2 =>
        by_cases h3 : hp2 = ""
        · have h2 : specPort src port = port := by simp [specPort, h1, hp, h3]
          simp [h1, h2, h3, hp]
        · have h2 : specPort src port = hp2 := by simp [specPort, h1, hp, h3]
          simp [h1, h2, h3, hp]
    · have h1 : specProtocol src = "http" := by simp [specProtocol, he, hq]
      have h2 : specPort src port = port := by simp [specPort, h1]
      simp [hq, h1, h2]

theorem mergeApiKey_lookup_ne (src dest : KVMap) {k : String} (h : k ≠ "api-key") :
    kvLookup (mergeApiKey src dest) k = kvLookup dest k := by
  unfold mergeApiKey
  cases ha : getStringFromMap src "misc.api_key" with
  | none => rfl
  | some a =>
    by_cases h2 : a = ""
    · simp [h2]
    · simp [h2, kvLookup_kvSet_ne dest _ h]

theorem mergeApiKey_lookup_present (src dest : KVMap) {a : String}
    (ha : getStringFromMap src "misc.api_key" = some a) (hne : a ≠ "") :
    kvLookup (mergeApiKey src dest) "api-key" = some (GoVal.str a) := by
  unfold mergeApiKey
  rw [ha]
  simp [hne]

theorem mergeApiKey_lookup_absent (src dest : KVMap)
    (ha : getStringFromMap src "misc.api_key" = none ∨
      getStringFromMap src "misc.api_key" = some "") :
    kvLookup (mergeApiKey src dest) "api-key" = kvLookup dest "api-key" := by
  unfold mergeApiKey
  rcases ha with ha | ha
  · rw [ha]
  · rw [ha]; simp

theorem mergeURL_ok {baseURL : String} {src dest1 : KVMap} {host port : String} {d2 : KVMap}
    (h : mergeURL baseURL src dest1 host port = Except.ok d2) :
    ∃ v : GoVal, d2 = kvSet dest1 "url" v := by
  unfold mergeURL at h
  by_cases hb : baseURL ≠ ""
  · rw [if_pos hb] at h
    cases hu : parseURL baseURL with
    | none => rw [hu] at h; cases h
    | some u =>
      rw [hu] at h
      exact ⟨_, (Except.ok.inj h).symm⟩
  · rw [if_neg hb] at h
    cases hu : parseURL ((mergeProtocolPort src port).1 ++ "://" ++ normalizeHost host ++ ":" ++ (mergeProtocolPort src port).2) with
    | none => rw [hu] at h; cases h
    | some u =>
      rw [hu] at h
      exact ⟨_, (Except.ok.inj h).symm⟩

theorem merge_ok_shape {baseURL : String} {src dest d2 : KVMap}
    (hm : INI.Merge baseURL src dest = Except.ok d2) :
    d2 = mergeApiKey src dest ∨ ∃ v, d2 = kvSet (mergeApiKey src dest) "url" v := by
  cases hh : getStringFromMap src "misc.host" with
  | none =>
    simp only [INI.Merge, hh] at hm
    exact Or.inl (Except.ok.inj hm).symm
  | some host =>
    cases hp : getStringFromMap src "misc.port" with
    | none =>
      simp only [INI.Merge, hh, hp] at hm
      exact Or.inl (Except.ok.inj hm).symm
    | some port =>
      simp only [INI.Merge, hh, hp] at hm
      by_cases hg : host ≠ "" ∧ port ≠ ""
      · rw [if_pos hg] at hm
        exact Or.inr (mergeURL_ok hm)
      · rw [if_neg hg] at hm
        exact Or.inl (Except.ok.inj hm).symm

/-- C1 (amended): for every source mapping in which misc.host and
misc.port are present and non-empty and for which the merge function
succeeds, the destination key url receives exactly the URL described by
the claim: scheme https exactly when misc.enable_https equals the
string one and http otherwise, https_port replacing the port for https,
the host trimmed, localhost-normalized and bracket-wrapped as
described; a non-empty base URL is parsed and has its host:port and
scheme overwritten with all other components preserved, and an empty
base URL yields the literal protocol://host:port string.  The original
claim is amended by the success proviso: when URL parsing fails the
merge function returns an error and writes nothing. -/
theorem merge_url_follows_spec :
    ∀ (baseURL : String) (src dest : KVMap) (host port : String) (d2 : KVMap),
      getStringFromMap src "misc.host" = some host → host ≠ "" →
      getStringFromMap src "misc.port" = some port → port ≠ "" →
      INI.Merge baseURL src dest = Except.ok d2 →
      (baseURL ≠ "" → ∃ u, parseURL baseURL = some u ∧
          kvLookup d2 "url" = some (GoVal.str (goURLString
            { u with host := (specNormHost host ++ ":" ++ specPort src port).data,
                     scheme := (specProtocol src).data }))) ∧
      (baseURL = "" →
          kvLookup d2 "url" = some (GoVal.str
            (specProtocol src ++ "://" ++ specNormHost host ++ ":" ++ specPort src port))) := by
  intro baseURL src dest host port d2 hh hne hp hpe hm
  simp only [INI.Merge, hh, hp] at hm
  rw [if_pos ⟨hne, hpe⟩] at hm
  unfold mergeURL at hm
  by_cases hb : baseURL = ""
  · rw [if_neg (by simp [hb])] at hm
    cases hu : parseURL ((mergeProtocolPort src port).1 ++ "://" ++ normalizeHost host ++ ":" ++ (mergeProtocolPort src port).2) with
    | none => rw [hu] at hm; cases hm
    | some u =>
      rw [hu] at hm
      have e := Except.ok.inj hm
      constructor
      · intro hc; exact absurd hb hc
      · intro _
        rw [← e]
        simp only [kvLookup_kvSet_self]
        have hs := parseURL_roundtrip hu
        rw [hs]
        simp [mergeProtocolPort_eq_spec, normalizeHost_eq_spec]
  · rw [if_pos hb] at hm
    cases hu : parseURL baseURL with
    | none => rw [hu] at hm; cases hm
    | some u =>
      rw [hu] at hm
      have e := Except.ok.inj hm
      constructor
      · intro _
        refine ⟨u, rfl, ?_⟩
        rw [← e]
        simp only [kvLookup_kvSet_self]
        simp [mergeProtocolPort_eq_spec, normalizeHost_eq_spec]
      · intro hc; exact absurd hc hb

/-- C1 counterexample: with misc.host and misc.port present and
non-empty but an unparseable base URL, the merge function does not
write a url key at all: it returns an error, refuting the claim that
it always writes the constructed URL. -/
theorem merge_url_claim_counterexample :
    getStringFromMap [("misc.host", GoVal.str "h"), ("misc.port", GoVal.str "80")]
      "misc.host" = some "h" ∧
    getStringFromMap [("misc.host", GoVal.str "h"), ("misc.port", GoVal.str "80")]
      "misc.port" = some "80" ∧
    INI.Merge "http://exam ple.com" [("misc.host", GoVal.str "h"), ("misc.port", GoVal.str "80")] []
      = Except.error "failed to parse base URL" :=
  ⟨rfl, rfl, rfl⟩

/-- C1 witness: the amended theorem applied at a concrete source with
host double-colon and port 8080 over a base URL with a path, which is
preserved. -/
theorem merge_url_follows_spec_witness :
    getStringFromMap [("misc.host", GoVal.str "::"), ("misc.port", GoVal.str "8080")]
      "misc.host" = some "::" ∧
    ("::" : String) ≠ "" ∧
    getStringFromMap [("misc.host", GoVal.str "::"), ("misc.port", GoVal.str "8080")]
      "misc.port" = some "8080" ∧
    ("8080" : String) ≠ "" ∧
    INI.Merge "http://sabnzbd.example.com:9090/api"
        [("misc.host", GoVal.str "::"), ("misc.port", GoVal.str "8080")] []
      = Except.ok [("url", GoVal.str "http://localhost:8080/api")] ∧
    (("http://sabnzbd.example.com:9090/api" : String) ≠ "" →
      ∃ u, parseURL "http://sabnzbd.example.com:9090/api" = some u ∧
        kvLookup [("url", GoVal.str "http://localhost:8080/api")] "url"
          = some (GoVal.str (goURLString
            { u with
              host := (specNormHost "::" ++ ":" ++
                specPort [("misc.host", GoVal.str "::"), ("misc.port", GoVal.str "8080")] "8080").data,
              scheme := (specProtocol
                [("misc.host", GoVal.str "::"), ("misc.port", GoVal.str "8080")]).data }))) :=
  ⟨rfl, by decide, rfl, by decide, rfl,
    (merge_url_follows_spec "http://sabnzbd.example.com:9090/api"
      [("misc.host", GoVal.str "::"), ("misc.port", GoVal.str "8080")] []
      "::" "8080" [("url", GoVal.str "http://localhost:8080/api")]
      rfl (by decide) rfl (by decide) rfl).1⟩

/-- C6: the merge function writes at most the destination keys api-key
and url and leaves every other destination key unchanged; it writes
api-key exactly when misc.api_key is present and non-empty in the
source; and when misc.host or misc.port is absent or empty it writes no
url key and returns no error, for every base URL including ones URL
parsing would reject. -/
theorem merge_frame_and_api_key :
    ∀ (baseURL : String) (src dest : KVMap),
      ((getStringFromMap src "misc.host" = none ∨ getStringFromMap src "misc.host" = some "" ∨
        getStringFromMap src "misc.port" = none ∨ getStringFromMap src "misc.port" = some "") →
        INI.Merge baseURL src dest = Except.ok (mergeApiKey src dest) ∧
        kvLookup (mergeApiKey src dest) "url" = kvLookup dest "url") ∧
      (∀ d2 : KVMap, INI.Merge baseURL src dest = Except.ok d2 →
        (∀ k : String, k ≠ "api-key" → k ≠ "url" → kvLookup d2 k = kvLookup dest k) ∧
        (∀ a : String, getStringFromMap src "misc.api_key" = some a → a ≠ "" →
          kvLookup d2 "api-key" = some (GoVal.str a)) ∧
        ((getStringFromMap src "misc.api_key" = none ∨
          getStringFromMap src "misc.api_key" = some "") →
          kvLookup d2 "api-key" = kvLookup dest "api-key")) := by
  intro baseURL src dest
  constructor
  · intro hmiss
    have hbranch : INI.Merge baseURL src dest = Except.ok (mergeApiKey src dest) := by
      cases hh : getStringFromMap src "misc.host" with
      | none => simp [INI.Merge, hh]
      | some host =>
        cases hp : getStringFromMap src "misc.port" with
        | none => simp [INI.Merge, hh, hp]
        | some port =>
          have hg : ¬ (host ≠ "" ∧ port ≠ "") := by
            rcases hmiss with h | h | h | h
            · rw [hh] at h; cases h
            · rw [hh] at h
              simp only [Option.some.injEq] at h
              simp [h]
            · rw [hp] at h; cases h
            · rw [hp] at h
              simp only [Option.some.injEq] at h
              simp [h]
          simp only [INI.Merge, hh, hp]
          rw [if_neg hg]
    exact ⟨hbranch, mergeApiKey_lookup_ne src dest (by decide)⟩
  · intro d2 hm
    rcases merge_ok_shape hm with he | ⟨v, he⟩
    · subst he
      exact ⟨fun k hk1 _ => mergeApiKey_lookup_ne src dest hk1,
        fun a ha hne => mergeApiKey_lookup_present src dest ha hne,
        fun hab => mergeApiKey_lookup_absent src dest hab⟩
    · subst he
      refine ⟨fun k hk1 hk2 => ?_, fun a ha hne => ?_, fun hab => ?_⟩
      · rw [kvLookup_kvSet_ne _ _ hk2]
        exact mergeApiKey_lookup_ne src dest hk1
      · rw [kvLookup_kvSet_ne _ _ (by decide)]
        exact mergeApiKey_lookup_present src dest ha hne
      · rw [kvLookup_kvSet_ne _ _ (by decide)]
        exact mergeApiKey_lookup_absent src dest hab

/-- C6 witness: a source without misc.host over an unparseable base URL
still merges without error and leaves the url key untouched. -/
theorem merge_frame_and_api_key_witness :
    (getStringFromMap [("misc.api_key", GoVal.str "k")] "misc.host" = none) ∧
    (INI.Merge "http://exam ple.com" [("misc.api_key", GoVal.str "k")] [("x", GoVal.str "y")]
        = Except.ok (mergeApiKey [("misc.api_key", GoVal.str "k")] [("x", GoVal.str "y")]) ∧
      kvLookup (mergeApiKey [("misc.api_key", GoVal.str "k")] [("x", GoVal.str "y")]) "url"
        = kvLookup [("x", GoVal.str "y")] "url") :=
  ⟨rfl, (merge_frame_and_api_key "http://exam ple.com" [("misc.api_key", GoVal.str "k")]
    [("x", GoVal.str "y")]).1 (Or.inl rfl)⟩

/-! ## Configuration resolver: the koanf layering modelled from the spec -/

/-- Embedding of the environment key transform closure in
LoadSabnzbdConfig: lower-case the name, turn double underscores into
dots and remaining underscores into dashes.  The ToLower and ReplaceAll
calls operate on the character list. -/
def envTransform (s : String) : String :=
  String.mk (replaceChar '_' '-' (replaceAll2 '_' '_' ['.'] (s.data.map Char.toLower)))

/-- Modelled from the spec: loading one layer into the key-value store,
with later keys overwriting earlier ones. -/
def loadPairs (store : KVMap) : List (String × GoVal) → KVMap
  | [] => store
  | p :: t => loadPairs (kvSet store p.1 p.2) t

/-- Modelled from the spec: the environment provider layer; every
variable contributes its transformed name as a key. -/
def envLayer (env : List (String × String)) : List (String × GoVal) :=
  env.map (fun p => (envTransform p.1, GoVal.str p.2))

/-- Command-line flag of the modelled flag set: a name, a default, and
the explicitly set value when the flag was passed. -/
structure GoFlag where
  name : String
  defValue : String
  value : Option String
deriving DecidableEq

/-- Modelled from the spec: the contribution of one flag to the flag
layer; a set flag contributes its value, an unset flag contributes its
default only when the accumulated store does not already hold the
key. -/
def flagPair (store : KVMap) (f : GoFlag) : Option (String × GoVal) :=
  match f.value with
  | some v => some (f.name, GoVal.str v)
  | none =>
    if (kvLookup store f.name).isSome then none else some (f.name, GoVal.str f.defValue)

/-- Modelled from the spec: the flag provider layer. -/
def flagPairs (store : KVMap) (flags : List GoFlag) : List (String × GoVal) :=
  flags.filterMap (flagPair store)

/-- Store after the defaults and environment layers. -/
def storeAfterEnv (env : List (String × String)) : KVMap :=
  loadPairs (loadPairs [] []) (envLayer env)

/-- Store after the defaults, environment and flag layers. -/
def storeAfterFlags (env : List (String × String)) (flags : List GoFlag) : KVMap :=
  loadPairs (storeAfterEnv env) (flagPairs (storeAfterEnv env) flags)

/-- Modelled from the spec: the string accessor of the store; a missing
key reads as the empty string. -/
def kString (store : KVMap) (key : String) : String :=
  match kvLookup store key with
  | some v => convertToString v
  | none => ""

/-- Modelled from the spec: decoding of a string field, falling back to
the seeded default when the key is absent. -/
def decodeStr (store : KVMap) (key dflt : String) : String :=
  match kvLookup store key with
  | some v => convertToString v
  | none => dflt

/-- Modelled from the spec: weakly-typed boolean conversion of the
decode step; unconvertible values are decode-type errors. -/
def goWeakBool : GoVal → Except String Bool
  | GoVal.str s =>
    if s = "1" ∨ s = "t" ∨ s = "T" ∨ s = "true" ∨ s = "TRUE" ∨ s = "True" then Except.ok true
    else if s = "0" ∨ s = "f" ∨ s = "F" ∨ s = "false" ∨ s = "FALSE" ∨ s = "False" ∨ s = "" then
      Except.ok false
    else Except.error "cannot parse bool"
  | GoVal.int n => Except.ok (n != 0)
  | GoVal.int64 n => Except.ok (n != 0)
  | _ => Except.error "cannot parse bool"

/-- Modelled from the spec: decoding of the boolean field. -/
def decodeBool (store : KVMap) (key : String) (dflt : Bool) : Except String Bool :=
  match kvLookup store key with
  | some v => goWeakBool v
  | none => Except.ok dflt

/-- Modelled from the spec: the caller-supplied base configuration of
the internal config package, whose fields are seeded into the output
and whose URL parameterizes the INI merge. -/
structure BaseConfig where
  App : String
  URL : String
  ApiKey : String
  DisableSSLVerify : Bool
deriving DecidableEq

/-- Embedding of SabnzbdConfig; the private koanf handle of the source
struct is not part of the external contract and is omitted. -/
structure SabnzbdConfig where
  App : String
  INIConfig : String
  URL : String
  ApiKey : String
  DisableSSLVerify : Bool
deriving DecidableEq

/-- Embedding of the INI step of LoadSabnzbdConfig: when the resolved
config key is non-empty the file is read and its parsed contents are
merged through the custom merge function seeded with the base URL. -/
def iniLayerStep (conf : BaseConfig) (fs : String → Option String) (store : KVMap) :
    Except String KVMap :=
  if kString store "config" ≠ "" then
    match fs (kString store "config") with
    | none => Except.error "error loading file"
    | some content => INI.Merge conf.URL (INI.Unmarshal content) store
  else Except.ok store

/-- Embedding of LoadSabnzbdConfig: defaults, environment and flag
layers, the optional INI layer, and the typed decode seeded from the
base configuration.  The file system is a parameter mapping paths to
contents. -/
def LoadSabnzbdConfig (conf : BaseConfig) (env : List (String × String)) (flags : List GoFlag)
    (fs : String → Option String) : Except String SabnzbdConfig :=
  match iniLayerStep conf fs (storeAfterFlags env flags) with
  | Except.error e => Except.error e
  | Except.ok k4 =>
    match decodeBool k4 "disable-ssl-verify" conf.DisableSSLVerify with
    | Except.error e => Except.error e
    | Except.ok dis =>
      Except.ok
        { App := decodeStr k4 "app" conf.App
          INIConfig := decodeStr k4 "config" ""
          URL := decodeStr k4 "url" conf.URL
          ApiKey := decodeStr k4 "api-key" conf.ApiKey
          DisableSSLVerify := dis }

theorem kvLookup_loadPairs_notin : ∀ (layer : List (String × GoVal)) (store : KVMap) {k : String},
    (∀ p ∈ layer, p.1 ≠ k) → kvLookup (loadPairs store layer) k = kvLookup store k := by
  intro layer
  induction layer with
  | nil => intro store k _; rfl
  | cons p t ih =>
    intro store k h
    have h1 : p.1 ≠ k := h p (by simp)
    have h2 : ∀ q ∈ t, q.1 ≠ k := fun q hq => h q (by simp [hq])
    unfold loadPairs
    rw [ih (kvSet store p.1 p.2) h2]
    exact kvLookup_kvSet_ne store p.2 (fun he => h1 he.symm)

theorem flagPairs_name {store : KVMap} {flags : List GoFlag} {q : String × GoVal}
    (hq : q ∈ flagPairs store flags) : ∃ f ∈ flags, q.1 = f.name := by
  unfold flagPairs at hq
  obtain ⟨f, hf, hfq⟩ := List.mem_filterMap.mp hq
  refine ⟨f, hf, ?_⟩
  unfold flagPair at hfq
  split at hfq
  · simp only [Option.some.injEq] at hfq
    rw [← hfq]
  · split at hfq
    · cases hfq
    · simp only [Option.some.injEq] at hfq
      rw [← hfq]

theorem envLayer_name {env : List (String × String)} {q : String × GoVal}
    (hq : q ∈ envLayer env) : ∃ p ∈ env, q.1 = envTransform p.1 := by
  unfold envLayer at hq
  obtain ⟨p, hp, hpq⟩ := List.mem_map.mp hq
  exact ⟨p, hp, by rw [← hpq]⟩

theorem storeAfterFlags_lookup_none (env : List (String × String)) (flags : List GoFlag)
    {k : String}
    (henv : ∀ p ∈ env, envTransform p.1 ≠ k)
    (hflag : ∀ f ∈ flags, f.name ≠ k) :
    kvLookup (storeAfterFlags env flags) k = none := by
  unfold storeAfterFlags
  rw [kvLookup_loadPairs_notin]
  · unfold storeAfterEnv
    rw [kvLookup_loadPairs_notin]
    · rfl
    · intro q hq
      obtain ⟨p, hp, he⟩ := envLayer_name hq
      rw [he]
      exact henv p hp
  · intro q hq
    obtain ⟨f, hf, he⟩ := flagPairs_name hq
    rw [he]
    exact hflag f hf

/-- C4: when no config path resolves and no environment variable or
flag maps to the keys url, api-key or disable-ssl-verify, resolution
succeeds and the decoded URL, ApiKey and DisableSSLVerify equal the
base configuration values exactly. -/
theorem load_defaults_pass_through :
    ∀ (conf : BaseConfig) (env : List (String × String)) (flags : List GoFlag)
      (fs : String → Option String),
      conf.URL ≠ "" → conf.ApiKey ≠ "" →
      (∀ p ∈ env, envTransform p.1 ≠ "url" ∧ envTransform p.1 ≠ "api-key" ∧
        envTransform p.1 ≠ "disable-ssl-verify") →
      (∀ f ∈ flags, f.name ≠ "url" ∧ f.name ≠ "api-key" ∧ f.name ≠ "disable-ssl-verify") →
      kString (storeAfterFlags env flags) "config" = "" →
      ∃ out, LoadSabnzbdConfig conf env flags fs = Except.ok out ∧
        out.URL = conf.URL ∧ out.ApiKey = conf.ApiKey ∧
        out.DisableSSLVerify = conf.DisableSSLVerify := by
  intro conf env flags fs _ _ henv hflag hcfg
  have hurl : kvLookup (storeAfterFlags env flags) "url" = none :=
    storeAfterFlags_lookup_none env flags (fun p hp => (henv p hp).1) (fun f hf => (hflag f hf).1)
  have hapi : kvLookup (storeAfterFlags env flags) "api-key" = none :=
    storeAfterFlags_lookup_none env flags (fun p hp => (henv p hp).2.1)
      (fun f hf => (hflag f hf).2.1)
  have hdis : kvLookup (storeAfterFlags env flags) "disable-ssl-verify" = none :=
    storeAfterFlags_lookup_none env flags (fun p hp => (henv p hp).2.2)
      (fun f hf => (hflag f hf).2.2)
  have hini : iniLayerStep conf fs (storeAfterFlags env flags)
      = Except.ok (storeAfterFlags env flags) := by
    unfold iniLayerStep
    rw [hcfg]
    simp
  have hb : decodeBool (storeAfterFlags env flags) "disable-ssl-verify" conf.DisableSSLVerify
      = Except.ok conf.DisableSSLVerify := by
    unfold decodeBool
    rw [hdis]
  refine ⟨⟨decodeStr (storeAfterFlags env flags) "app" conf.App,
      decodeStr (storeAfterFlags env flags) "config" "",
      conf.URL, conf.ApiKey, conf.DisableSSLVerify⟩, ?_, rfl, rfl, rfl⟩
  unfold LoadSabnzbdConfig
  rw [hini]
  simp only [hb]
  have h1 : decodeStr (storeAfterFlags env flags) "url" conf.URL = conf.URL := by
    simp [decodeStr, hurl]
  have h2 : decodeStr (storeAfterFlags env flags) "api-key" conf.ApiKey = conf.ApiKey := by
    simp [decodeStr, hapi]
  rw [h1, h2]

/-- C4 witness: a concrete base configuration with unrelated
environment and flags passes through unchanged. -/
theorem load_defaults_pass_through_witness :
    (("http://localhost:8080" : String) ≠ "") ∧
    (∀ p ∈ [("FOO", "bar")], envTransform p.1 ≠ "url" ∧ envTransform p.1 ≠ "api-key" ∧
      envTransform p.1 ≠ "disable-ssl-verify") ∧
    (∀ f ∈ [(⟨"config", "", none⟩ : GoFlag)], f.name ≠ "url" ∧ f.name ≠ "api-key" ∧
      f.name ≠ "disable-ssl-verify") ∧
    kString (storeAfterFlags [("FOO", "bar")] [⟨"config", "", none⟩]) "config" = "" ∧
    ∃ out, LoadSabnzbdConfig ⟨"sabnzbd", "http://localhost:8080", "abcdef0123456789ab", true⟩
        [("FOO", "bar")] [⟨"config", "", none⟩] (fun _ => none) = Except.ok out ∧
      out.URL = "http://localhost:8080" ∧ out.ApiKey = "abcdef0123456789ab" ∧
      out.DisableSSLVerify = true :=
  ⟨by decide, by decide, by decide, rfl,
    load_defaults_pass_through ⟨"sabnzbd", "http://localhost:8080", "abcdef0123456789ab", true⟩
      [("FOO", "bar")] [⟨"config", "", none⟩] (fun _ => none)
      (by decide) (by decide) (by decide) (by decide) rfl⟩

/-- C3: evaluation of the resolver at the failing input of the claim.
The environment variable SAB_CONFIG is transformed to the key
sab-config, while the resolver reads the key config, so the parsed
INIConfig field stays empty instead of receiving the path asserted by
the claim and by the repository test suite. -/
theorem load_env_sab_config_ignored :
    envTransform "SAB_CONFIG" = "sab-config" ∧
    LoadSabnzbdConfig ⟨"sabnzbd", "http://localhost:8080", "abcdef0123456789abcdef0123456789", false⟩
        [("SAB_CONFIG", "test_fixtures/sabnzbd.ini")] [⟨"config", "", none⟩] (fun _ => none)
      = Except.ok ⟨"sabnzbd", "", "http://localhost:8080", "abcdef0123456789abcdef0123456789", false⟩ ∧
    ("" : String) ≠ "test_fixtures/sabnzbd.ini" :=
  ⟨rfl, rfl, by decide⟩

/-- C2: the INI merge inside resolution is parameterized by the
caller-supplied base URL, never by the url value accumulated from the
environment or flag layers: the decoded URL equals the value the merge
function computed from the base configuration URL field and the parsed
INI contents alone, for every environment and flag assignment,
including ones that set a url key. -/
theorem load_merge_uses_caller_base_url :
    ∀ (conf : BaseConfig) (env : List (String × String)) (flags : List GoFlag)
      (fs : String → Option String) (p content : String) (d2 : KVMap) (out : SabnzbdConfig),
      kString (storeAfterFlags env flags) "config" = p → p ≠ "" →
      fs p = some content →
      INI.Merge conf.URL (INI.Unmarshal content) (storeAfterFlags env flags) = Except.ok d2 →
      LoadSabnzbdConfig conf env flags fs = Except.ok out →
      out.URL = decodeStr d2 "url" conf.URL ∧
      (∀ host port : String,
        getStringFromMap (INI.Unmarshal content) "misc.host" = some host → host ≠ "" →
        getStringFromMap (INI.Unmarshal content) "misc.port" = some port → port ≠ "" →
        (conf.URL ≠ "" → ∃ u, parseURL conf.URL = some u ∧
          out.URL = goURLString
            { u with host := (specNormHost host ++ ":" ++ specPort (INI.Unmarshal content) port).data, scheme := (specProtocol (INI.Unmarshal content)).data }) ∧
        (conf.URL = "" → out.URL = specProtocol (INI.Unmarshal content) ++ "://" ++
          specNormHost host ++ ":" ++ specPort (INI.Unmarshal content) port)) := by
  intro conf env flags fs p content d2 out hcfg hpne hfs hm hload
  have hini : iniLayerStep conf fs (storeAfterFlags env flags) = Except.ok d2 := by
    unfold iniLayerStep
    rw [hcfg, if_pos hpne, hfs]
    exact hm
  have hurl : out.URL = decodeStr d2 "url" conf.URL := by
    unfold LoadSabnzbdConfig at hload
    rw [hini] at hload
    dsimp only at hload
    cases hdb : decodeBool d2 "disable-ssl-verify" conf.DisableSSLVerify with
    | error e => rw [hdb] at hload; cases hload
    | ok dis =>
      rw [hdb] at hload
      have he := Except.ok.inj hload
      rw [← he]
  refine ⟨hurl, ?_⟩
  intro host port hh hne hp2 hpe2
  have hspec := merge_url_follows_spec conf.URL (INI.Unmarshal content)
    (storeAfterFlags env flags) host port d2 hh hne hp2 hpe2 hm
  constructor
  · intro hbne
    obtain ⟨u, hu, hv⟩ := hspec.1 hbne
    refine ⟨u, hu, ?_⟩
    rw [hurl]
    simp only [decodeStr, hv, convertToString]
  · intro hbe
    have hv := hspec.2 hbe
    rw [hurl]
    simp only [decodeStr, hv, convertToString]

/-- C2 witness: with an environment layer that sets a url key, the
resolved URL is still built from the caller base URL, whose host and
port the INI file overrides. -/
theorem load_merge_uses_caller_base_url_witness :
    kString (storeAfterFlags [("URL", "http://evil.example.com:99")]
      [⟨"config", "", some "c.ini"⟩]) "config" = "c.ini" ∧
    ("c.ini" : String) ≠ "" ∧
    (fun q => if q = "c.ini" then some "host = ::\nport = 8080" else none) "c.ini"
      = some "host = ::\nport = 8080" ∧
    INI.Merge "http://base.example.com:1234" (INI.Unmarshal "host = ::\nport = 8080")
        (storeAfterFlags [("URL", "http://evil.example.com:99")] [⟨"config", "", some "c.ini"⟩])
      = Except.ok [("url", GoVal.str "http://localhost:8080"), ("config", GoVal.str "c.ini")] ∧
    LoadSabnzbdConfig ⟨"", "http://base.example.com:1234", "k", false⟩
        [("URL", "http://evil.example.com:99")] [⟨"config", "", some "c.ini"⟩]
        (fun q => if q = "c.ini" then some "host = ::\nport = 8080" else none)
      = Except.ok ⟨"", "c.ini", "http://localhost:8080", "k", false⟩ ∧
    (⟨"", "c.ini", "http://localhost:8080", "k", false⟩ : SabnzbdConfig).URL
      = decodeStr [("url", GoVal.str "http://localhost:8080"), ("config", GoVal.str "c.ini")]
          "url" "http://base.example.com:1234" :=
  ⟨rfl, by decide, rfl, rfl, rfl,
    (load_merge_uses_caller_base_url ⟨"", "http://base.example.com:1234", "k", false⟩
      [("URL", "http://evil.example.com:99")] [⟨"config", "", some "c.ini"⟩]
      (fun q => if q = "c.ini" then some "host = ::\nport = 8080" else none)
      "c.ini" "host = ::\nport = 8080"
      [("url", GoVal.str "http://localhost:8080"), ("config", GoVal.str "c.ini")]
      ⟨"", "c.ini", "http://localhost:8080", "k", false⟩
      rfl (by decide) rfl rfl rfl).1⟩

theorem printURL_localhost (u : GoURL) (ho : u.opaquePart = []) (hus : u.user = none)
    (hpa : u.path = []) (hq : u.query = none) (hf : u.fragment = none) :
    goURLString { u with host := ("localhost" ++ ":" ++ "8080" : String).data, scheme := ("http" : String).data } = "http://localhost:8080" := by
  obtain ⟨sch, op, us, hostf, hA, pathf, qf, ff⟩ := u
  simp only at ho hus hpa hq hf
  subst ho; subst hus; subst hpa; subst hq; subst hf
  cases hA
  all_goals dsimp only
  all_goals decide

/-- C5 (amended): resolving an INI file whose misc section sets host to
a double colon and port to 8080 with no enable_https key yields the URL
http://localhost:8080 for every base URL that is empty or parses to a
URL without path, query, fragment, userinfo or opaque components.  The
original claim quantified over every base URL; it fails for base URLs
carrying such further components, which the merge preserves. -/
theorem load_ini_any_to_localhost :
    ∀ (conf : BaseConfig) (env : List (String × String)) (flags : List GoFlag)
      (fs : String → Option String) (p content : String) (out : SabnzbdConfig),
      kString (storeAfterFlags env flags) "config" = p → p ≠ "" →
      fs p = some content →
      getStringFromMap (INI.Unmarshal content) "misc.host" = some "::" →
      getStringFromMap (INI.Unmarshal content) "misc.port" = some "8080" →
      getStringFromMap (INI.Unmarshal content) "misc.enable_https" = none →
      (conf.URL = "" ∨ ∃ u, parseURL conf.URL = some u ∧ u.opaquePart = [] ∧ u.user = none ∧
        u.path = [] ∧ u.query = none ∧ u.fragment = none) →
      LoadSabnzbdConfig conf env flags fs = Except.ok out →
      out.URL = "http://localhost:8080" := by
  intro conf env flags fs p content out hcfg hpne hfs hh hp2 hen hbase hload
  unfold LoadSabnzbdConfig at hload
  have hini : iniLayerStep conf fs (storeAfterFlags env flags)
      = INI.Merge conf.URL (INI.Unmarshal content) (storeAfterFlags env flags) := by
    unfold iniLayerStep
    rw [hcfg, if_pos hpne, hfs]
  rw [hini] at hload
  cases hm : INI.Merge conf.URL (INI.Unmarshal content) (storeAfterFlags env flags) with
  | error e => rw [hm] at hload; cases hload
  | ok d2 =>
    rw [hm] at hload
    dsimp only at hload
    cases hdb : decodeBool d2 "disable-ssl-verify" conf.DisableSSLVerify with
    | error e => rw [hdb] at hload; cases hload
    | ok dis =>
      rw [hdb] at hload
      have hrec := Except.ok.inj hload
      have hurl : out.URL = decodeStr d2 "url" conf.URL := by rw [← hrec]
      have hspec := merge_url_follows_spec conf.URL (INI.Unmarshal content)
        (storeAfterFlags env flags) "::" "8080" d2 hh (by decide) hp2 (by decide) hm
      have hproto : specProtocol (INI.Unmarshal content) = "http" := by
        simp [specProtocol, hen]
      have hport : specPort (INI.Unmarshal content) "8080" = "8080" := by
        simp [specPort, hproto]
      have hnorm : specNormHost "::" = "localhost" := by decide
      by_cases hbe : conf.URL = ""
      · have hv := hspec.2 hbe
        rw [hproto, hport, hnorm] at hv
        rw [hurl]
        simp only [decodeStr, hv, convertToString]
        decide
      · rcases hbase with hc | ⟨u, hu, ho, hus, hpa, hq, hf⟩
        · exact absurd hc hbe
        · obtain ⟨u2, hu2, hv⟩ := hspec.1 hbe
          rw [hu] at hu2
          have he2 := Option.some.inj hu2
          subst he2
          rw [hproto, hport, hnorm] at hv
          rw [hurl]
          simp only [decodeStr, hv, convertToString]
          exact printURL_localhost u ho hus hpa hq hf

/-- C5 counterexample: for the base URL
http://sabnzbd.example.com:9090/sabnzbd the resolved URL keeps the
base path and is http://localhost:8080/sabnzbd, not the exact string
http://localhost:8080 the claim asserts for every base URL. -/
theorem load_ini_base_path_counterexample :
    LoadSabnzbdConfig ⟨"", "http://sabnzbd.example.com:9090/sabnzbd", "", false⟩ []
        [⟨"config", "", some "c.ini"⟩]
        (fun q => if q = "c.ini" then some "host = ::\nport = 8080" else none)
      = Except.ok ⟨"", "c.ini", "http://localhost:8080/sabnzbd", "", false⟩ ∧
    ("http://localhost:8080/sabnzbd" : String) ≠ "http://localhost:8080" :=
  ⟨rfl, by decide⟩

/-- C5 witness: the amended theorem applied at an empty base URL with a
concrete INI file. -/
theorem load_ini_any_to_localhost_witness :
    kString (storeAfterFlags [] [⟨"config", "", some "c.ini"⟩]) "config" = "c.ini" ∧
    ("c.ini" : String) ≠ "" ∧
    getStringFromMap (INI.Unmarshal "host = ::\nport = 8080") "misc.host" = some "::" ∧
    getStringFromMap (INI.Unmarshal "host = ::\nport = 8080") "misc.port" = some "8080" ∧
    getStringFromMap (INI.Unmarshal "host = ::\nport = 8080") "misc.enable_https" = none ∧
    LoadSabnzbdConfig ⟨"", "", "", false⟩ [] [⟨"config", "", some "c.ini"⟩]
        (fun q => if q = "c.ini" then some "host = ::\nport = 8080" else none)
      = Except.ok ⟨"", "c.ini", "http://localhost:8080", "", false⟩ ∧
    (⟨"", "c.ini", "http://localhost:8080", "", false⟩ : SabnzbdConfig).URL
      = "http://localhost:8080" :=
  ⟨rfl, by decide, rfl, rfl, rfl, rfl,
    load_ini_any_to_localhost ⟨"", "", "", false⟩ [] [⟨"config", "", some "c.ini"⟩]
      (fun q => if q = "c.ini" then some "host = ::\nport = 8080" else none)
      "c.ini" "host = ::\nport = 8080" ⟨"", "c.ini", "http://localhost:8080", "", false⟩
      rfl (by decide) rfl rfl rfl rfl (Or.inl rfl) rfl⟩

/-! ## Validation -/

/-- Entry of the validation error report: a field name as reported
externally and a human-readable message. -/
structure FieldError where
  field : String
  message : String
deriving DecidableEq

/-- Lookup in a list of string pairs, used for the Messages and
Translates maps. -/
def strLookup : List (String × String) → String → Option String
  | [], _ => none
  | p :: t, k => if p.1 = k then some p.2 else strLookup t k

/-- Embedding of the Translates method of SabnzbdConfig: internal field
names are reported under their external flag names. -/
def SabnzbdConfig.Translates : List (String × String) :=
  [("INIConfig", "config"), ("ApiKey", "api-key")]

/-- Field-name translation applied to validation messages; names
without an entry are reported unchanged. -/
def translateField (n : String) : String :=
  (strLookup SabnzbdConfig.Translates n).getD n

/-- Embedding of the Messages method of SabnzbdConfig: the custom
message for the ApiKey regex rule. -/
def SabnzbdConfig.Messages : List (String × String) :=
  [("ApiKey.regex", "api-key must be a 20-32 character alphanumeric string")]

/-- Semantics of the anchored validation regex of the ApiKey tag:
twenty to thirty-two ASCII letters or digits. -/
def apiKeyRegexOk (s : String) : Bool :=
  decide (20 ≤ s.data.length) && decide (s.data.length ≤ 32) &&
    s.data.all (fun c => c.isAlpha || c.isDigit)

/-- Modelled from the spec: the url rule of the validation engine
accepts a syntactically valid URL. -/
def gookitIsURL (s : String) : Bool := (parseURL s).isSome

/-- Modelled from the spec: validation of the URL field under its
required and url rules, one message for the first failing rule of the
field. -/
def urlErrors (c : SabnzbdConfig) : List FieldError :=
  if c.URL = "" then [⟨translateField "URL", "URL is required"⟩]
  else if gookitIsURL c.URL then []
  else [⟨translateField "URL", "URL must be a valid URL"⟩]

/-- Modelled from the spec: validation of the ApiKey field under its
required and regex rules; the regex failure carries the custom message
of the Messages map. -/
def apiKeyErrors (c : SabnzbdConfig) : List FieldError :=
  if c.ApiKey = "" then [⟨translateField "ApiKey", "api-key is required"⟩]
  else if apiKeyRegexOk c.ApiKey then []
  else [⟨translateField "ApiKey", (strLookup SabnzbdConfig.Messages "ApiKey.regex").getD ""⟩]

/-- Modelled from the spec: the validation report of Validate, one
message per failing field, empty exactly when validation passes. -/
def SabnzbdConfig.Validate (c : SabnzbdConfig) : List FieldError :=
  urlErrors c ++ apiKeyErrors c

theorem apiKeyRegexOk_iff (s : String) :
    apiKeyRegexOk s = true ↔
      (20 ≤ s.data.length ∧ s.data.length ≤ 32 ∧
        ∀ ch ∈ s.data, ch.isAlpha = true ∨ ch.isDigit = true) := by
  unfold apiKeyRegexOk
  simp [List.all_eq_true, and_assoc]

/-- C8: Validate reports no error exactly when the URL is non-empty and
syntactically valid and the ApiKey consists of twenty to thirty-two
ASCII letters and digits; in particular every alphanumeric key of
length twenty through thirty-two is accepted, and lengths nineteen or
thirty-three, non-alphanumeric characters, an empty URL or an empty
ApiKey are rejected. -/
theorem validate_accepts_iff :
    ∀ c : SabnzbdConfig,
      SabnzbdConfig.Validate c = [] ↔
        (c.URL ≠ "" ∧ (parseURL c.URL).isSome = true ∧
          20 ≤ c.ApiKey.data.length ∧ c.ApiKey.data.length ≤ 32 ∧
          ∀ ch ∈ c.ApiKey.data, ch.isAlpha = true ∨ ch.isDigit = true) := by
  intro c
  have hmain : SabnzbdConfig.Validate c = [] ↔
      (¬ c.URL = "" ∧ gookitIsURL c.URL = true ∧ apiKeyRegexOk c.ApiKey = true) := by
    unfold SabnzbdConfig.Validate urlErrors apiKeyErrors
    by_cases h1 : c.URL = ""
    · simp [h1]
    · by_cases h2 : gookitIsURL c.URL
      · by_cases h3 : c.ApiKey = ""
        · have h4 : apiKeyRegexOk "" = false := by decide
          simp [h1, h2, h3, h4]
        · by_cases h4 : apiKeyRegexOk c.ApiKey
          · simp [h1, h2, h3, h4]
          · simp [h1, h2, h3, h4]
      · simp [h1, h2]
  rw [hmain, apiKeyRegexOk_iff]
  unfold gookitIsURL
  simp [and_assoc]

/-- C8 witness: a concrete configuration with a valid URL and a
twenty-character alphanumeric key passes validation. -/
theorem validate_accepts_iff_witness :
    SabnzbdConfig.Validate ⟨"", "", "http://localhost:8080", "abcdefABCDEF01234567", false⟩ = [] :=
  (validate_accepts_iff ⟨"", "", "http://localhost:8080", "abcdefABCDEF01234567", false⟩).mpr
    (by decide)

/-- C9: when both the URL and the ApiKey are invalid, the report
carries one message per failing field rather than only the first
failure; the ApiKey regex failure carries the fixed custom message, and
field names are translated to their external flag names, config for
INIConfig and api-key for ApiKey. -/
theorem validate_multi_field_report :
    ∀ c : SabnzbdConfig, c.URL = "" → c.ApiKey ≠ "" → apiKeyRegexOk c.ApiKey = false →
      SabnzbdConfig.Validate c =
        [⟨"URL", "URL is required"⟩,
         ⟨"api-key", "api-key must be a 20-32 character alphanumeric string"⟩] ∧
      translateField "ApiKey" = "api-key" ∧ translateField "INIConfig" = "config" ∧
      strLookup SabnzbdConfig.Messages "ApiKey.regex"
        = some "api-key must be a 20-32 character alphanumeric string" := by
  intro c h1 h2 h3
  refine ⟨?_, rfl, rfl, rfl⟩
  unfold SabnzbdConfig.Validate urlErrors apiKeyErrors
  rw [if_pos h1, if_neg h2, if_neg (by simp [h3])]
  rfl

/-- C9 witness: the multi-field report at a concrete configuration with
empty URL and a short key. -/
theorem validate_multi_field_report_witness :
    (("short" : String) ≠ "") ∧ apiKeyRegexOk "short" = false ∧
    SabnzbdConfig.Validate ⟨"", "", "", "short", false⟩ =
      [⟨"URL", "URL is required"⟩,
       ⟨"api-key", "api-key must be a 20-32 character alphanumeric string"⟩] :=
  ⟨by decide, by decide,
    (validate_multi_field_report ⟨"", "", "", "short", false⟩ rfl (by decide) (by decide)).1⟩
